import Mathlib

/-!
Verification development for a content-publishing backend (Express + Mongoose).
The definitions below are a shallow embedding of the server code:
`server/models/Category.js`, `server/middleware/auth.js`,
`server/routes/posts.js`, `server/routes/categories.js`, `server/routes/auth.js`.
Databases are modelled as lists of records; Mongoose `findById` / `findOne`
become `List.find?`; HTTP outcomes become an explicit result type.
-/

namespace Blog

/-- HTTP-level outcome of a route handler, abstracting the status codes the
routes produce: 200 ok, 201 created, 400, 401, 403, 404, 500. -/
inductive HttpResult (α : Type) where
  | ok (val : α)
  | created (val : α)
  | badRequest
  | unauthorized
  | forbidden
  | notFound
  | serverError
  deriving Repr, DecidableEq

/-- A stored comment subdocument of a post (`CommentSchema` fields used by
the routes: author reference and text content). -/
structure CommentRec where
  author : String
  content : String
  deriving Repr, DecidableEq

/-- A stored post document (`models/Post.js` fields used by the routes).
Identifiers are the string forms of Mongo ObjectIds. -/
structure PostRec where
  id : String
  title : String
  content : String
  excerpt : Option String
  featuredImage : Option String
  tags : List String
  slug : String
  category : String
  author : String
  isPublished : Bool
  viewCount : Nat
  comments : List CommentRec
  deriving Repr, DecidableEq

/-- A stored category document (`models/Category.js`). -/
structure CategoryRec where
  id : String
  name : String
  slug : String
  description : Option String
  deriving Repr, DecidableEq

/-- A stored user document (`models/User.js` fields used by the routes:
id, name, email, hashed password credential, role). -/
structure UserRec where
  id : String
  name : String
  email : String
  password : String
  role : String
  deriving Repr, DecidableEq

/-! ## Slug derivation (`models/Category.js`, pre-save hook) -/

/-- JS regex word character `\w` without the unicode flag: `[A-Za-z0-9_]`. -/
def isWordChar (c : Char) : Bool :=
  (Char.ofNat 65 ≤ c && c ≤ Char.ofNat 90) ||
  (Char.ofNat 97 ≤ c && c ≤ Char.ofNat 122) ||
  (Char.ofNat 48 ≤ c && c ≤ Char.ofNat 57) ||
  c = Char.ofNat 95

/-- ASCII lowercasing, the fragment of JS `toLowerCase` relevant to the
slug pipeline (every character whose lowercase form survives the
`[^\w ]` strip is ASCII). -/
def lowerChar (c : Char) : Char :=
  if Char.ofNat 65 ≤ c && c ≤ Char.ofNat 90 then Char.ofNat (c.toNat + 32) else c

/-- JS `.replace(/[^\w ]+/g, '')`: keep only word characters and spaces. -/
def stripNonWordSpace (l : List Char) : List Char :=
  l.filter (fun c => isWordChar c || c = ' ')

/-- Removal of trailing spaces, the tail half of JS `.trim()`. -/
def dropTrailSp : List Char → List Char
  | [] => []
  | c :: rest =>
    match dropTrailSp rest with
    | [] => if c = ' ' then [] else [c]
    | r => c :: r

/-- JS `.trim()` as it acts after the strip (only spaces remain): drop
leading spaces, then trailing ones. -/
def trimSpaces (l : List Char) : List Char :=
  dropTrailSp (l.dropWhile (fun c => c = ' '))

/-- JS `.replace(/ +/g, '-')`: each maximal run of spaces becomes one
hyphen.  The boolean records whether the previous character was a space
(i.e. whether we are inside a run that already emitted its hyphen). -/
def collapseGo : List Char → Bool → List Char
  | [], _ => []
  | c :: rest, insideRun =>
    if c = ' ' then
      if insideRun then collapseGo rest true
      else '-' :: collapseGo rest true
    else c :: collapseGo rest false

/-- Slug derivation from `CategorySchema.pre('save')`:
`name.toLowerCase().replace(/[^\w ]+/g, '').trim().replace(/ +/g, '-')`. -/
def slugify (name : String) : String :=
  String.mk (collapseGo (trimSpaces (stripNonWordSpace (name.toList.map lowerChar))) false)

/-- Head of the list is a space. -/
def startsSp : List Char → Bool
  | [] => false
  | c :: _ => c = ' '

/-- Last element, if any, is not a space. -/
def noTrailSp : List Char → Bool
  | [] => true
  | [c] => !(c = ' ')
  | _ :: rest => noTrailSp rest

/-! ## Identifier resolution (`routes/posts.js`, `findPostByIdOrSlug`) -/

/-- One character of the JS regex class `[0-9a-fA-F]`. -/
def isHexDigitChar (c : Char) : Bool :=
  (Char.ofNat 48 ≤ c && c ≤ Char.ofNat 57) ||
  (Char.ofNat 97 ≤ c && c ≤ Char.ofNat 102) ||
  (Char.ofNat 65 ≤ c && c ≤ Char.ofNat 70)

/-- JS `idOrSlug.match(/^[0-9a-fA-F]{24}$/)`: the canonical ObjectId
lexical shape. -/
def isHex24 (s : String) : Bool :=
  s.length == 24 && s.toList.all isHexDigitChar

/-- `Post.findById(idOrSlug)` over the modelled collection. -/
def postFindById (db : List PostRec) (i : String) : Option PostRec :=
  db.find? (fun p => p.id == i)

/-- `Post.findOne(slug: idOrSlug)` over the modelled collection. -/
def postFindBySlug (db : List PostRec) (s : String) : Option PostRec :=
  db.find? (fun p => p.slug == s)

/-- `findPostByIdOrSlug` from `routes/posts.js`: reject a falsy (empty)
argument; when the string is ObjectId-shaped try a direct id lookup first;
fall back to a slug lookup; `none` models the route-level 404. -/
def findPostByIdOrSlug (db : List PostRec) (idOrSlug : String) : Option PostRec :=
  if idOrSlug == "" then none
  else if isHex24 idOrSlug then
    match postFindById db idOrSlug with
    | some p => some p
    | none => postFindBySlug db idOrSlug
  else postFindBySlug db idOrSlug

/-! ## Token service (`routes/auth.js` issuing, `jsonwebtoken` semantics) -/

/-- Decoded form of a signed token: the embedded user identity claim, the
absolute expiry (seconds since epoch) and the signing secret the signature
binds it to.  Modelled from the documented semantics of the `jsonwebtoken`
library as the routes use it (`jwt.sign(obj, secret, expiresIn)` /
`jwt.verify(token, secret)`). -/
structure TokenPayload where
  uid : String
  exp : Nat
  sig : String
  deriving Repr, DecidableEq

/-- Seven days in seconds, the `expiresIn: '7d'` of both auth routes. -/
def sevenDays : Nat := 7 * 24 * 60 * 60

/-- JS `String.split(sep)` on a single-character separator: every
occurrence separates, empty pieces are kept. -/
def jsSplitChar (sep : Char) : List Char → List (List Char)
  | [] => [[]]
  | c :: rest =>
    if c = sep then [] :: jsSplitChar sep rest
    else
      match jsSplitChar sep rest with
      | h :: t => (c :: h) :: t
      | [] => [[c]]

/-- Decimal digit value. -/
def digitVal (c : Char) : Option Nat :=
  if Char.ofNat 48 ≤ c && c ≤ Char.ofNat 57 then some (c.toNat - 48) else none

/-- Parse a nonempty all-digit character list as a decimal number. -/
def parseNatGo : List Char → Nat → Option Nat
  | [], acc => some acc
  | c :: rest, acc =>
    match digitVal c with
    | some d => parseNatGo rest (acc * 10 + d)
    | none => none

/-- Parse a decimal numeral; the empty list is not a numeral. -/
def parseNat? : List Char → Option Nat
  | [] => none
  | l => parseNatGo l 0

/-- Render a number in decimal (fuel-driven so the kernel can evaluate). -/
def natToCharsAux : Nat → Nat → List Char → List Char
  | 0, _, acc => acc
  | fuel + 1, n, acc =>
    if n = 0 then acc
    else natToCharsAux fuel (n / 10) (Char.ofNat (48 + n % 10) :: acc)

/-- Decimal numeral of a natural number. -/
def natToChars (n : Nat) : List Char :=
  if n = 0 then [Char.ofNat 48] else natToCharsAux (n + 1) n []

/-- The digit list the renderer accumulates (empty for zero). -/
def digitsOf (m : Nat) : List Char :=
  natToCharsAux (m + 1) m []

/-- `jwt.sign(id: user._id, secret, expiresIn: '7d')` as used by the
register and login routes: identity claim plus absolute expiry `now + 7d`,
bound to the signing secret. -/
def issueToken (uid secret : String) (now : Nat) : TokenPayload :=
  { uid := uid, exp := now + sevenDays, sig := secret }

/-- Wire form of a token (the opaque string in the Bearer header): the
three dot-separated segments of the real JWT encoding, with the payload
fields kept in clear.  Well-formed segments are dot-free, as base64url
segments are in the real encoding. -/
def encodeToken (t : TokenPayload) : String :=
  String.mk (t.uid.toList ++ '.' :: natToChars t.exp ++ '.' :: t.sig.toList)

/-- Parse the wire form back into a payload; a string that is not a token
yields `none` (the library's malformed-token error). -/
def decodeToken (s : String) : Option TokenPayload :=
  match jsSplitChar '.' s.toList with
  | [u, e, g] =>
    match parseNat? e with
    | some n => some { uid := String.mk u, exp := n, sig := String.mk g }
    | none => none
  | _ => none

/-- `jwt.verify(token, secret)`: succeeds with the identity claim when the
string decodes, the signature matches the secret, and the current time is
before the absolute expiry (the library reports `TokenExpiredError` when
`now >= exp`); any failure is the thrown error, modelled as `none`. -/
def verifyToken (s secret : String) (now : Nat) : Option String :=
  match decodeToken s with
  | none => none
  | some t => if t.sig == secret && now < t.exp then some t.uid else none

/-! ## Authentication gate (`middleware/auth.js`) -/

/-- The user record as attached to the request: loaded by
`User.findById(decoded.id).select('-password')`, so the credential field
is structurally absent. -/
structure AuthedUser where
  id : String
  name : String
  email : String
  role : String
  deriving Repr, DecidableEq

/-- Projection performed by `.select('-password')`. -/
def sanitizeUser (u : UserRec) : AuthedUser :=
  { id := u.id, name := u.name, email := u.email, role := u.role }

/-- JS `authHeader.startsWith('Bearer ')`. -/
def hasBearerShape : List Char → Bool
  | 'B' :: 'e' :: 'a' :: 'r' :: 'e' :: 'r' :: ' ' :: _ => true
  | _ => false

/-- JS `authHeader.split(' ')[1]`: the chunk after the first space. -/
def bearerToken (h : String) : String :=
  String.mk ((jsSplitChar ' ' h.toList).getD 1 [])

/-- `authenticate` from `middleware/auth.js`: reject a missing header or
one not starting with `Bearer `; take `authHeader.split(' ')[1]` as the
token; verify it; load the user by the embedded id without the password;
reject when the user no longer exists; otherwise attach the user.
Every rejection is a 401. -/
def authenticate (users : List UserRec) (secret : String) (now : Nat)
    (authHeader : Option String) : HttpResult AuthedUser :=
  match authHeader with
  | none => .unauthorized
  | some h =>
    if !(hasBearerShape h.toList) then .unauthorized
    else
      match verifyToken (bearerToken h) secret now with
      | none => .unauthorized
      | some uid =>
        match users.find? (fun u => u.id == uid) with
        | none => .unauthorized
        | some u => .ok (sanitizeUser u)

/-! ## Category resolution inside post routes (`routes/posts.js`) -/

/-- `Category.findById(s).catch(null)` then `Category.findOne(slug: s)`:
the id cast only succeeds for ObjectId-shaped strings (otherwise the cast
error is caught and the id lookup yields null), then the slug fallback. -/
def resolveCategory (cats : List CategoryRec) (s : String) : Option CategoryRec :=
  match (if isHex24 s then cats.find? (fun c => c.id == s) else none) with
  | some c => some c
  | none => cats.find? (fun c => c.slug == s)

/-! ## Post route handlers (`routes/posts.js`) -/

/-- Request body of `PUT /posts/:id`; `some` marks a field present in the
JSON body (the route tests presence with `f in req.body`). -/
structure UpdateBody where
  title : Option String
  content : Option String
  excerpt : Option String
  featuredImage : Option String
  tags : Option (List String)
  isPublished : Option Bool
  category : Option String
  deriving Repr, DecidableEq

/-- The field-by-field overwrite of the update route: each of the six
allow-listed fields is copied from the body when present; then, when
`req.body.category` is truthy (present and nonempty), the category is
reassigned only if it resolves, and silently left unchanged otherwise. -/
def applyUpdate (cats : List CategoryRec) (post : PostRec) (b : UpdateBody) : PostRec :=
  let p : PostRec :=
    { post with
      title := b.title.getD post.title
      content := b.content.getD post.content
      excerpt := match b.excerpt with | some e => some e | none => post.excerpt
      featuredImage := match b.featuredImage with | some f => some f | none => post.featuredImage
      tags := b.tags.getD post.tags
      isPublished := b.isPublished.getD post.isPublished }
  match b.category with
  | none => p
  | some c =>
    if c == "" then p
    else
      match resolveCategory cats c with
      | some cat => { p with category := cat.id }
      | none => p

/-- `PUT /posts/:id` after `authenticate` has attached `actor`: resolve the
post (404 when unresolved), apply the ownership-or-admin guard
(`String(post.author) !== String(req.user._id) && req.user.role !== 'admin'`
is a 403), then overwrite and save. -/
def putPostHandler (db : List PostRec) (cats : List CategoryRec) (actor : AuthedUser)
    (idOrSlug : String) (b : UpdateBody) : HttpResult PostRec :=
  match findPostByIdOrSlug db idOrSlug with
  | none => .notFound
  | some post =>
    if post.author != actor.id && actor.role != "admin" then .forbidden
    else .ok (applyUpdate cats post b)

/-- `DELETE /posts/:id` after `authenticate`: resolve, guard exactly as the
update route, then remove. -/
def deletePostHandler (db : List PostRec) (actor : AuthedUser)
    (idOrSlug : String) : HttpResult Unit :=
  match findPostByIdOrSlug db idOrSlug with
  | none => .notFound
  | some post =>
    if post.author != actor.id && actor.role != "admin" then .forbidden
    else .ok ()

/-- `POST /posts/:id/comments` after `authenticate`: the validator rejects
an empty content body (400); unresolved post is a 404; otherwise
`post.addComment` runs and the route answers 201.  No ownership guard. -/
def addCommentHandler (db : List PostRec) (actor : AuthedUser)
    (idOrSlug : String) (content : String) : HttpResult CommentRec :=
  if content == "" then .badRequest
  else
    match findPostByIdOrSlug db idOrSlug with
    | none => .notFound
    | some _ => .created { author := actor.id, content := content }

/-- Request body of `POST /posts`. -/
structure CreateBody where
  title : String
  content : String
  excerpt : Option String
  featuredImage : Option String
  tags : List String
  category : String
  isPublished : Bool
  deriving Repr, DecidableEq

/-- `POST /posts` after `authenticate`: the validators reject empty title,
content or category (400); an unresolvable category is a 400; otherwise the
post is created with `author := req.user._id` and answered 201.  No
ownership guard. -/
def createPostHandler (cats : List CategoryRec) (actor : AuthedUser)
    (newId : String) (b : CreateBody) : HttpResult PostRec :=
  if b.title == "" || b.content == "" || b.category == "" then .badRequest
  else
    match resolveCategory cats b.category with
    | none => .badRequest
    | some cat =>
      .created
        { id := newId, title := b.title, content := b.content, excerpt := b.excerpt
          featuredImage := b.featuredImage, tags := b.tags, slug := slugify b.title
          category := cat.id, author := actor.id, isPublished := b.isPublished
          viewCount := 0, comments := [] }

/-- `GET /posts/:id` (public, no `authenticate`): resolve (404 when
unresolved); on success fire the view-count increment, whose promise
rejection is swallowed by `.catch(do nothing)`, and answer 200 with the
post.  `incrementFails` is the outcome of the underlying increment; the
returned `Nat` counts how many increment attempts the handler fired. -/
def getPostHandler (db : List PostRec) (idOrSlug : String)
    (incrementFails : Bool) : HttpResult PostRec × Nat :=
  match findPostByIdOrSlug db idOrSlug with
  | none => (.notFound, 0)
  | some post =>
    let _swallowed := incrementFails
    (.ok post, 1)

/-- `GET /posts/search` (public): `Post.find(text search on q).limit(20)`;
`textMatch` stands for the storage text index's match relation, and the
missing query parameter defaults to the empty string (`req.query.q || ''`). -/
def searchPostsHandler (textMatch : PostRec → String → Bool)
    (db : List PostRec) (q : Option String) : HttpResult (List PostRec) :=
  .ok ((db.filter (fun p => textMatch p (q.getD ""))).take 20)

/-! ## Category persistence (`models/Category.js`, `routes/categories.js`) -/

/-- A category document in memory, with the Mongoose modified-paths flag
for `name` that the pre-save hook consults (`this.isModified('name')`).
A freshly constructed document has every path modified. -/
structure CategoryDoc where
  cat : CategoryRec
  nameModified : Bool
  deriving Repr, DecidableEq

/-- `new Category(name, description)`: a fresh document; the slug is not
yet assigned (the hook performs that at save time) and `name` counts as
modified. -/
def newCategory (id name : String) (description : Option String) : CategoryDoc :=
  { cat := { id := id, name := name, slug := "", description := description }
    nameModified := true }

/-- Mongoose setter for `name`: marks the path modified. -/
def setCategoryName (d : CategoryDoc) (n : String) : CategoryDoc :=
  { d with cat := { d.cat with name := n }, nameModified := true }

/-- Mongoose setter for `description`: leaves the `name` path unmarked. -/
def setCategoryDescription (d : CategoryDoc) (s : Option String) : CategoryDoc :=
  { d with cat := { d.cat with description := s } }

/-- `CategorySchema.pre('save')`: when the `name` path is unmodified the
hook is a no-op; otherwise it rederives the slug from the name. -/
def categoryPreSave (d : CategoryDoc) : CategoryDoc :=
  if !d.nameModified then d
  else { d with cat := { d.cat with slug := slugify d.cat.name } }

/-- `document.save()`: run the pre-save hook, persist, clear the
modified-paths flag. -/
def saveCategoryDoc (d : CategoryDoc) : CategoryDoc :=
  { categoryPreSave d with nameModified := false }

/-- Storage-level insert with the schema's unique indexes on `name` and
`slug`: a duplicate key makes the insert throw (`none`), which the route's
catch-all turns into a 500. -/
def insertCategory (db : List CategoryRec) (c : CategoryRec) : Option (List CategoryRec) :=
  if db.any (fun d => d.name == c.name || d.slug == c.slug) then none
  else some (db ++ [c])

/-- Outcome a caller of `POST /categories` observes. -/
inductive CatOutcome where
  | createdCat (c : CategoryRec)
  | dupName400
  | server500
  deriving Repr, DecidableEq

/-- `POST /categories` after `authenticate`, run to completion with no
interleaving: the `findOne(name)` pre-check answers 400 when the name
exists; otherwise the document is saved (hook derives the slug) and a
storage duplicate-key error is caught as a 500. -/
def createCategoryHandler (db : List CategoryRec) (newId name : String)
    (description : Option String) : CatOutcome × List CategoryRec :=
  if (db.find? (fun c => c.name == name)).isSome then (.dupName400, db)
  else
    let doc := saveCategoryDoc (newCategory newId name description)
    match insertCategory db doc.cat with
    | none => (.server500, db)
    | some db2 => (.createdCat doc.cat, db2)

/-! ## Two concurrent category creations (check-then-insert interleaving)

Each request is two storage steps: the `findOne(name)` pre-check, then the
save/insert.  A scheduler chooses which request steps next; a finished
request absorbs further steps. -/

/-- Progress of one in-flight `POST /categories` request. -/
inductive ProcState where
  | ready
  | checkedOk
  | done (outcome : CatOutcome)
  deriving Repr, DecidableEq

/-- One storage step of a request creating category `name` with fresh id
`newId`, against the shared collection. -/
def stepProc (name newId : String) : ProcState → List CategoryRec → ProcState × List CategoryRec
  | .ready, db =>
    if (db.find? (fun c => c.name == name)).isSome then (.done .dupName400, db)
    else (.checkedOk, db)
  | .checkedOk, db =>
    let doc := saveCategoryDoc (newCategory newId name none)
    match insertCategory db doc.cat with
    | none => (.done .server500, db)
    | some db2 => (.done (.createdCat doc.cat), db2)
  | .done o, db => (.done o, db)

/-- Shared state of the two racing requests. -/
structure RaceState where
  p1 : ProcState
  p2 : ProcState
  db : List CategoryRec
  deriving Repr, DecidableEq

/-- Scheduler step: `true` steps request 1, `false` steps request 2.  Both
requests create the same name; their fresh ids differ. -/
def raceStep (name : String) (s : RaceState) (which : Bool) : RaceState :=
  if which then
    let r := stepProc name "id1" s.p1 s.db
    { s with p1 := r.1, db := r.2 }
  else
    let r := stepProc name "id2" s.p2 s.db
    { s with p2 := r.1, db := r.2 }

/-- Run a schedule from a state. -/
def raceRun (name : String) (s : RaceState) : List Bool → RaceState
  | [] => s
  | w :: ws => raceRun name (raceStep name s w) ws

/-- Run an arbitrary schedule from the empty collection, then let each
request finish (two further steps each absorb into its final outcome). -/
def raceFinal (name : String) (sched : List Bool) : RaceState :=
  raceRun name { p1 := .ready, p2 := .ready, db := [] }
    (sched ++ [true, true, false, false])

/-! ## Express router for `/posts` (registration order of `routes/posts.js`) -/

/-- One segment of a route pattern: a literal or a named parameter. -/
inductive Seg where
  | lit (s : String)
  | param (name : String)
  deriving Repr, DecidableEq

/-- HTTP methods used by the routers. -/
inductive Method where
  | get
  | post
  | put
  | delete
  deriving Repr, DecidableEq

/-- The handlers of `routes/posts.js`. -/
inductive PostsEndpoint where
  | listPosts
  | getPost
  | createPost
  | updatePost
  | deletePost
  | addComment
  | searchPosts
  deriving Repr, DecidableEq

/-- Express path matching of a pattern against the path segments: a
parameter segment matches any one segment. -/
def matchSegs : List Seg → List String → Bool
  | [], [] => true
  | .lit s :: ps, x :: xs => s == x && matchSegs ps xs
  | .param _ :: ps, _ :: xs => matchSegs ps xs
  | _, _ => false

/-- The `/posts` router's routes in their registration order in
`routes/posts.js`: the list route, then `GET /:id`, the create, update,
delete and comment routes, and `GET /search` registered last. -/
def postsRouter : List (Method × List Seg × PostsEndpoint) :=
  [ (.get, [], .listPosts)
  , (.get, [.param "id"], .getPost)
  , (.post, [], .createPost)
  , (.put, [.param "id"], .updatePost)
  , (.delete, [.param "id"], .deletePost)
  , (.post, [.param "id", .lit "comments"], .addComment)
  , (.get, [.lit "search"], .searchPosts) ]

/-- Express dispatch: the first registered route whose method and pattern
match wins. -/
def dispatchPosts (m : Method) (segs : List String) : Option PostsEndpoint :=
  (postsRouter.find? (fun r => r.1 == m && matchSegs r.2.1 segs)).map (fun r => r.2.2)

/-- The full unauthenticated GET pipeline on the `/posts` router: dispatch
the path, then run the matched handler.  Returns the body a search caller
would care about: either a single post (from `GET /:id`) or a post list
(from the search or list handlers). -/
def handlePostsGet (textMatch : PostRec → String → Bool) (db : List PostRec)
    (segs : List String) (q : Option String) :
    Option (HttpResult PostRec ⊕ HttpResult (List PostRec)) :=
  match dispatchPosts .get segs with
  | some .getPost =>
    some (Sum.inl (getPostHandler db ((segs.getD 0 "")) false).1)
  | some .searchPosts => some (Sum.inr (searchPostsHandler textMatch db q))
  | some .listPosts => some (Sum.inr (.ok db))
  | _ => none

/-! ## Spec-side formulations and concrete fixtures -/

/-- Maximal space-separated words of a character list: the pieces between
whitespace runs, leading and trailing runs included, empty pieces dropped. -/
def spaceWords (l : List Char) : List (List Char) :=
  (jsSplitChar ' ' l).filter (fun w => !w.isEmpty)

/-- Modelled from the spec: slug derivation as §4.6 words it — lowercase,
strip all characters other than word characters and spaces; trimming and
collapsing the internal whitespace runs to single hyphens then amounts to
joining the space-separated words with single hyphens. -/
def slugifySpec (name : String) : String :=
  String.mk (List.intercalate ['-'] (spaceWords (stripNonWordSpace (name.toList.map lowerChar))))

/-- A concrete stored post used to instantiate the theorems. -/
def wPost : PostRec :=
  { id := "aaaaaaaaaaaaaaaaaaaaaaaa", title := "hello", content := "body"
    excerpt := none, featuredImage := none, tags := [], slug := "hello-post"
    category := "cat1", author := "u1", isPublished := true, viewCount := 3
    comments := [] }

/-- A concrete admin actor. -/
def wAdmin : AuthedUser := { id := "u2", name := "Ada", email := "a(at)x", role := "admin" }

/-- The concrete author of `wPost`. -/
def wOwner : AuthedUser := { id := "u1", name := "Own", email := "o(at)x", role := "member" }

/-- An update body touching nothing. -/
def emptyBody : UpdateBody :=
  { title := none, content := none, excerpt := none, featuredImage := none
    tags := none, isPublished := none, category := none }

/-- An update body with a new title and an unresolvable category. -/
def demoBody : UpdateBody :=
  { emptyBody with title := some "New title", category := some "no-such-category" }

/-- The text-index match relation instantiated for the demonstrations:
a post matches the query that equals its title. -/
def searchDemoMatch : PostRec → String → Bool := fun p q => p.title == q

/-- A saved category document for the C8 witness. -/
def savedTechDoc : CategoryDoc := saveCategoryDoc (newCategory "id0" "Tech" none)

/-- A stored user for the C4 witness, owner of the password credential
that the gate must strip. -/
def wUser : UserRec :=
  { id := "u1", name := "Own", email := "o(at)x", password := "hashed", role := "member" }

/-- A second stored post whose slug coincides with the id of `wPost`. -/
def wShadow : PostRec :=
  { wPost with
    id := "bbbbbbbbbbbbbbbbbbbbbbbb"
    slug := "aaaaaaaaaaaaaaaaaaaaaaaa"
    title := "shadow" }

/-- A stored category against which duplicate creations are attempted. -/
def techSeed : CategoryRec := { id := "id0", name := "Tech", slug := "tech", description := none }

/-- The record request 1 of the race would insert. -/
def raceCat1 : CategoryRec := { id := "id1", name := "Tech", slug := "tech", description := none }

/-- The record request 2 of the race would insert. -/
def raceCat2 : CategoryRec := { id := "id2", name := "Tech", slug := "tech", description := none }

/-- Invariant of the two-request race from the empty collection: either
nothing is inserted yet and both requests are still pending, or exactly
one request has inserted its record and the other can no longer end up
with a created outcome. -/
abbrev raceInv (s : RaceState) : Prop :=
  (s.db = [] ∧ (s.p1 = .ready ∨ s.p1 = .checkedOk)
    ∧ (s.p2 = .ready ∨ s.p2 = .checkedOk))
  ∨ (s.db = [raceCat1] ∧ s.p1 = .done (.createdCat raceCat1)
    ∧ (s.p2 = .ready ∨ s.p2 = .checkedOk ∨ s.p2 = .done .dupName400
        ∨ s.p2 = .done .server500))
  ∨ (s.db = [raceCat2] ∧ s.p2 = .done (.createdCat raceCat2)
    ∧ (s.p1 = .ready ∨ s.p1 = .checkedOk ∨ s.p1 = .done .dupName400
        ∨ s.p1 = .done .server500))

/-- Every observable end state of the race: one stored Tech category and
at least one request observing an error outcome. -/
abbrev raceObservation (s : RaceState) : Prop :=
  (s.db.filter (fun c => c.name == "Tech")).length = 1
  ∧ ((s.p1 = .done .dupName400 ∨ s.p1 = .done .server500)
     ∨ (s.p2 = .done .dupName400 ∨ s.p2 = .done .server500))

/-! ## Claim theorems -/

/-- C8: the category pre-save hook derives the slug only when the name
path changed: saving a fresh document assigns the slug derived from the
name, while re-saving a clean document whose description changed leaves
the slug unchanged. -/
theorem c8_slug_frame :
    (∀ (d : CategoryDoc) (desc : Option String), d.nameModified = false →
      (saveCategoryDoc (setCategoryDescription d desc)).cat.slug = d.cat.slug
        ∧ (saveCategoryDoc (setCategoryDescription d desc)).cat.description = desc)
    ∧ (∀ (i n : String) (ds : Option String),
      (saveCategoryDoc (newCategory i n ds)).cat.slug = slugify n) := by
  constructor
  · intro d desc h
    simp [saveCategoryDoc, setCategoryDescription, categoryPreSave, h]
  · intro i n ds
    simp [saveCategoryDoc, newCategory, categoryPreSave]

/-- Witness for C8 at a concrete saved document and description change. -/
theorem c8_slug_frame_witness :
    (saveCategoryDoc (setCategoryDescription savedTechDoc (some "news"))).cat.slug
      = savedTechDoc.cat.slug :=
  (c8_slug_frame.1 savedTechDoc (some "news") rfl).1

/-- C5: the single-post read responds independently of the view-count
increment's outcome; an existing post is served — with no authentication
input in scope — and fires the increment exactly once per successful
read, while a missing post is a 404 and fires none. -/
theorem c5_read_swallows_increment :
    (∀ (db : List PostRec) (i : String) (f1 f2 : Bool),
      (getPostHandler db i f1).1 = (getPostHandler db i f2).1)
    ∧ (∀ (db : List PostRec) (i : String) (post : PostRec) (f : Bool),
      findPostByIdOrSlug db i = some post →
        getPostHandler db i f = (.ok post, 1))
    ∧ (∀ (db : List PostRec) (i : String) (f : Bool),
      findPostByIdOrSlug db i = none →
        getPostHandler db i f = (.notFound, 0)) := by
  refine ⟨?_, ?_, ?_⟩
  · intro db i f1 f2
    cases h : findPostByIdOrSlug db i <;> simp [getPostHandler, h]
  · intro db i post f h
    simp [getPostHandler, h]
  · intro db i f h
    simp [getPostHandler, h]

/-- Witness for C5: an unauthenticated read of a stored post by slug
succeeds, with failing increment, and fires the increment once. -/
theorem c5_read_swallows_increment_witness :
    getPostHandler [wPost] "hello-post" true = (.ok wPost, 1) :=
  c5_read_swallows_increment.2.1 [wPost] "hello-post" wPost true (by decide)

/-- C10: `GET /posts/search` is captured by the `GET /posts/:id` route
registered earlier, so the text-search route is unreachable: on a store
whose only post matches the query, the pipeline answers 404 while the
shadowed search handler would have returned the match. -/
theorem c10_search_route_shadowed :
    dispatchPosts .get ["search"] = some .getPost
    ∧ dispatchPosts .get ["search"] ≠ some .searchPosts
    ∧ handlePostsGet searchDemoMatch [wPost] ["search"] (some "hello")
        = some (Sum.inl .notFound)
    ∧ searchPostsHandler searchDemoMatch [wPost] (some "hello") = .ok [wPost] := by
  decide

/-- The guard boolean of the update and delete routes, as a proposition. -/
theorem guard_bool_iff (actor : AuthedUser) (post : PostRec) :
    (post.author != actor.id && actor.role != "admin") = true
      ↔ ¬(actor.id = post.author ∨ actor.role = "admin") := by
  rw [Bool.and_eq_true, bne_iff_ne, bne_iff_ne, not_or]
  exact ⟨fun h => ⟨Ne.symm h.1, h.2⟩, fun h => ⟨Ne.symm h.1, h.2⟩⟩

/-- C1: with the target post resolved, the update and delete routes answer
403 exactly when the actor is neither the post's author nor an admin, and
succeed exactly when the actor is one of the two; the comment, create,
read and search handlers never answer 403. -/
theorem c1_ownership_guard (db : List PostRec) (cats : List CategoryRec)
    (actor : AuthedUser) (idOrSlug : String) (b : UpdateBody) (post : PostRec)
    (hres : findPostByIdOrSlug db idOrSlug = some post) :
    (putPostHandler db cats actor idOrSlug b = .forbidden
      ↔ ¬(actor.id = post.author ∨ actor.role = "admin"))
    ∧ (putPostHandler db cats actor idOrSlug b = .ok (applyUpdate cats post b)
      ↔ (actor.id = post.author ∨ actor.role = "admin"))
    ∧ (deletePostHandler db actor idOrSlug = .forbidden
      ↔ ¬(actor.id = post.author ∨ actor.role = "admin"))
    ∧ (deletePostHandler db actor idOrSlug = .ok ()
      ↔ (actor.id = post.author ∨ actor.role = "admin"))
    ∧ (∀ content, addCommentHandler db actor idOrSlug content ≠ .forbidden)
    ∧ (∀ nid cb, createPostHandler cats actor nid cb ≠ .forbidden)
    ∧ (∀ f, (getPostHandler db idOrSlug f).1 ≠ .forbidden)
    ∧ (∀ tm q, searchPostsHandler tm db q ≠ .forbidden) := by
  cases hg : (post.author != actor.id && actor.role != "admin") with
  | true =>
    have hn : ¬(actor.id = post.author ∨ actor.role = "admin") :=
      (guard_bool_iff actor post).mp hg
    refine ⟨?_, ?_, ?_, ?_, ?_, ?_, ?_, ?_⟩
    · simp [putPostHandler, hres, hg, hn]
    · simp [putPostHandler, hres, hg, hn]
    · simp [deletePostHandler, hres, hg, hn]
    · simp [deletePostHandler, hres, hg, hn]
    · intro content
      simp only [addCommentHandler]
      split
      · simp
      · simp [hres]
    · intro nid cb
      simp only [createPostHandler]
      split
      · simp
      · cases resolveCategory cats cb.category <;> simp
    · intro f
      simp [getPostHandler, hres]
    · intro tm q
      simp [searchPostsHandler]
  | false =>
    have hp : actor.id = post.author ∨ actor.role = "admin" := by
      by_contra hc
      rw [← guard_bool_iff actor post] at hc
      simp [hg] at hc
    refine ⟨?_, ?_, ?_, ?_, ?_, ?_, ?_, ?_⟩
    · simp [putPostHandler, hres, hg, hp]
    · simp [putPostHandler, hres, hg, hp]
    · simp [deletePostHandler, hres, hg, hp]
    · simp [deletePostHandler, hres, hg, hp]
    · intro content
      simp only [addCommentHandler]
      split
      · simp
      · simp [hres]
    · intro nid cb
      simp only [createPostHandler]
      split
      · simp
      · cases resolveCategory cats cb.category <;> simp
    · intro f
      simp [getPostHandler, hres]
    · intro tm q
      simp [searchPostsHandler]

/-- Witness for C1: an admin who is not the author updates a stored post
successfully. -/
theorem c1_ownership_guard_witness :
    putPostHandler [wPost] [] wAdmin "hello-post" emptyBody
      = .ok (applyUpdate [] wPost emptyBody) :=
  ((c1_ownership_guard [wPost] [] wAdmin "hello-post" emptyBody wPost
    (by decide)).2.1).mpr (Or.inr rfl)

/-- C9: a successful post update only overwrites the six allow-listed
fields from the request body (each absent field is left unchanged, each
present one takes the body's value); the author, id, slug, view counter
and comments are never taken from the body; and a requested category that
does not resolve — or an absent or empty category field — leaves the
post's category unchanged instead of erroring.  The `slug` equation is
about the route-level overwrite; re-derivation inside the model layer's
save hook is outside this statement. -/
theorem c9_update_allowlist (db : List PostRec) (cats : List CategoryRec)
    (actor : AuthedUser) (idOrSlug : String) (b : UpdateBody) (post r : PostRec)
    (hres : findPostByIdOrSlug db idOrSlug = some post)
    (hok : putPostHandler db cats actor idOrSlug b = .ok r) :
    r.author = post.author ∧ r.id = post.id ∧ r.slug = post.slug
    ∧ r.viewCount = post.viewCount ∧ r.comments = post.comments
    ∧ r.title = b.title.getD post.title
    ∧ r.content = b.content.getD post.content
    ∧ r.excerpt = (match b.excerpt with | some e => some e | none => post.excerpt)
    ∧ r.featuredImage = (match b.featuredImage with | some f => some f | none => post.featuredImage)
    ∧ r.tags = b.tags.getD post.tags
    ∧ r.isPublished = b.isPublished.getD post.isPublished
    ∧ (b.category = none → r.category = post.category)
    ∧ (∀ c, b.category = some c → c ≠ "" → resolveCategory cats c = none →
        r.category = post.category) := by
  have hr : r = applyUpdate cats post b := by
    rw [putPostHandler, hres] at hok
    by_cases hg : (post.author != actor.id && actor.role != "admin") = true
    · simp [hg] at hok
    · simp [eq_false_of_ne_true hg] at hok
      exact hok.symm
  subst hr
  have hbase : ∀ (p2 : PostRec), p2 = applyUpdate cats post b →
      p2.author = post.author ∧ p2.id = post.id ∧ p2.slug = post.slug
        ∧ p2.viewCount = post.viewCount ∧ p2.comments = post.comments := by
    intro p2 hp2
    subst hp2
    rw [applyUpdate]
    cases hc : b.category with
    | none => simp
    | some c =>
      by_cases hce : c = ""
      · simp [hce]
      · cases hrc : resolveCategory cats c <;>
          simp [hce, hrc]
  refine ⟨(hbase _ rfl).1, (hbase _ rfl).2.1, (hbase _ rfl).2.2.1,
    (hbase _ rfl).2.2.2.1, (hbase _ rfl).2.2.2.2, ?_, ?_, ?_, ?_, ?_, ?_, ?_, ?_⟩
  all_goals
    rw [applyUpdate]
  · cases hc : b.category with
    | none => simp
    | some c =>
      by_cases hce : c = ""
      · simp [hce]
      · cases hrc : resolveCategory cats c <;> simp [hce, hrc]
  · cases hc : b.category with
    | none => simp
    | some c =>
      by_cases hce : c = ""
      · simp [hce]
      · cases hrc : resolveCategory cats c <;> simp [hce, hrc]
  · cases hc : b.category with
    | none => simp
    | some c =>
      by_cases hce : c = ""
      · simp [hce]
      · cases hrc : resolveCategory cats c <;> simp [hce, hrc]
  · cases hc : b.category with
    | none => simp
    | some c =>
      by_cases hce : c = ""
      · simp [hce]
      · cases hrc : resolveCategory cats c <;> simp [hce, hrc]
  · cases hc : b.category with
    | none => simp
    | some c =>
      by_cases hce : c = ""
      · simp [hce]
      · cases hrc : resolveCategory cats c <;> simp [hce, hrc]
  · cases hc : b.category with
    | none => simp
    | some c =>
      by_cases hce : c = ""
      · simp [hce]
      · cases hrc : resolveCategory cats c <;> simp [hce, hrc]
  · intro hc
    simp [hc]
  · intro c hc hce hrc
    simp [hc, hce, hrc]

/-- Witness for C9: updating the stored post with a new title and an
unresolvable category keeps the author. -/
theorem c9_update_allowlist_witness :
    (applyUpdate [] wPost demoBody).author = wPost.author :=
  (c9_update_allowlist [wPost] [] wOwner "hello-post" demoBody wPost
    (applyUpdate [] wPost demoBody) (by decide) (by decide)).1

/-- C2 counterexample: when a post's current slug is hexadecimal of length
24 and equals another post's id, resolving it by that slug returns the
other record, so resolving by canonical id and by current slug disagree. -/
theorem c2_resolver_slug_shadowed :
    findPostByIdOrSlug [wPost, wShadow] wShadow.slug = some wPost
    ∧ findPostByIdOrSlug [wPost, wShadow] wShadow.id = some wShadow
    ∧ wPost ≠ wShadow := by
  decide

/-- Lookup by a key that is duplicate-free over the collection finds
exactly the stored record. -/
theorem find_key_eq (db : List PostRec) (f : PostRec → String) (p : PostRec)
    (hnd : (db.map f).Nodup) (hmem : p ∈ db) :
    db.find? (fun q => f q == f p) = some p := by
  cases h : db.find? (fun q => f q == f p) with
  | none =>
    have hall := List.find?_eq_none.mp h p hmem
    simp at hall
  | some q =>
    have hq := List.mem_of_find?_eq_some h
    have hpq : f q = f p := by
      have := List.find?_some h
      simpa using this
    rw [List.inj_on_of_nodup_map hnd hq hmem hpq]

/-- C2 amended: over a store with duplicate-free 24-hex ids and
duplicate-free slugs, a post whose slug is nonempty and not claimed as the
id of a different post resolves identically by canonical id and by current
slug; a string matching no id and no slug resolves to nothing. -/
theorem c2_resolver_amended (db : List PostRec) (p : PostRec)
    (hmem : p ∈ db)
    (hid : (db.map PostRec.id).Nodup)
    (hslug : (db.map PostRec.slug).Nodup)
    (hhex : ∀ q ∈ db, isHex24 q.id = true)
    (hs : p.slug ≠ "")
    (hshadow : ∀ q ∈ db, q.id = p.slug → q = p) :
    findPostByIdOrSlug db p.id = some p
    ∧ findPostByIdOrSlug db p.slug = some p
    ∧ ∀ s, (∀ q ∈ db, q.id ≠ s ∧ q.slug ≠ s) → findPostByIdOrSlug db s = none := by
  have hphex : isHex24 p.id = true := hhex p hmem
  have hidne : (p.id == "") = false := by
    rw [beq_eq_false_iff_ne]
    intro he
    rw [he] at hphex
    exact absurd hphex (by decide)
  have hsluge : (p.slug == "") = false := beq_eq_false_iff_ne.mpr hs
  have hfid : postFindById db p.id = some p := find_key_eq db PostRec.id p hid hmem
  have hfslug : postFindBySlug db p.slug = some p := find_key_eq db PostRec.slug p hslug hmem
  refine ⟨?_, ?_, ?_⟩
  · simp [findPostByIdOrSlug, hidne, hphex, hfid]
  · by_cases hh : isHex24 p.slug = true
    · cases h : postFindById db p.slug with
      | none => simp [findPostByIdOrSlug, hsluge, hh, h, hfslug]
      | some q =>
        have hq := List.mem_of_find?_eq_some h
        have hqe : q.id = p.slug := by
          have := List.find?_some h
          simpa using this
        have := hshadow q hq hqe
        simp [findPostByIdOrSlug, hsluge, hh, h, this]
    · simp [findPostByIdOrSlug, hsluge, eq_false_of_ne_true hh, hfslug]
  · intro s hnone
    by_cases hse : s = ""
    · simp [findPostByIdOrSlug, hse]
    · have h1 : postFindById db s = none := by
        rw [postFindById, List.find?_eq_none]
        intro q hq
        simp [(hnone q hq).1]
      have h2 : postFindBySlug db s = none := by
        rw [postFindBySlug, List.find?_eq_none]
        intro q hq
        simp [(hnone q hq).2]
      by_cases hh : isHex24 s = true
      · simp [findPostByIdOrSlug, beq_eq_false_iff_ne.mpr hse, hh, h1, h2]
      · simp [findPostByIdOrSlug, beq_eq_false_iff_ne.mpr hse, eq_false_of_ne_true hh, h2]

/-- Witness for the amended C2 on a one-post store. -/
theorem c2_resolver_amended_witness :
    findPostByIdOrSlug [wPost] wPost.id = some wPost
    ∧ findPostByIdOrSlug [wPost] wPost.slug = some wPost := by
  have h := c2_resolver_amended [wPost] wPost (by decide) (by decide) (by decide)
    (by decide) (by decide) (by decide)
  exact ⟨h.1, h.2.1⟩

/-- C4: the gate answers 401 exactly when the header is absent, or lacks
the `Bearer token` shape, or the carried token fails verification, or no
user exists for the verified identity; in the remaining case it attaches
the loaded user with the credential projected away; and every outcome is
one of those two. -/
theorem c4_auth_gate (users : List UserRec) (secret : String) (now : Nat)
    (hdr : Option String) :
    (authenticate users secret now hdr = .unauthorized ↔
      (hdr = none ∨ ∃ h, hdr = some h ∧
        (hasBearerShape h.toList = false
         ∨ verifyToken (bearerToken h) secret now = none
         ∨ ∃ uid, verifyToken (bearerToken h) secret now = some uid
             ∧ users.find? (fun u => u.id == uid) = none)))
    ∧ (∀ h uid u, hdr = some h → hasBearerShape h.toList = true →
        verifyToken (bearerToken h) secret now = some uid →
        users.find? (fun u => u.id == uid) = some u →
        authenticate users secret now hdr = .ok (sanitizeUser u))
    ∧ (authenticate users secret now hdr = .unauthorized
        ∨ ∃ u, u ∈ users ∧ authenticate users secret now hdr = .ok (sanitizeUser u)) := by
  cases hdr with
  | none =>
    refine ⟨?_, ?_, ?_⟩
    · simp [authenticate]
    · intro h uid u heq
      exact absurd heq (by simp)
    · left
      rfl
  | some h =>
    by_cases hb : hasBearerShape h.toList = true
    · have hbd : hasBearerShape h.data = true := hb
      cases hv : verifyToken (bearerToken h) secret now with
      | none =>
        have ha : authenticate users secret now (some h) = .unauthorized := by
          simp [authenticate, hbd, hv]
        refine ⟨?_, ?_, ?_⟩
        · rw [ha]
          simp only [true_iff]
          exact Or.inr ⟨h, rfl, Or.inr (Or.inl hv)⟩
        · intro h' uid u heq hshape hv' hf
          cases heq
          rw [hv] at hv'
          exact absurd hv' (by simp)
        · exact Or.inl ha
      | some uid =>
        cases hf : users.find? (fun u => u.id == uid) with
        | none =>
          have ha : authenticate users secret now (some h) = .unauthorized := by
            simp [authenticate, hbd, hv, hf]
          refine ⟨?_, ?_, ?_⟩
          · rw [ha]
            simp only [true_iff]
            exact Or.inr ⟨h, rfl, Or.inr (Or.inr ⟨uid, hv, hf⟩)⟩
          · intro h' uid' u heq hshape hv' hf'
            cases heq
            rw [hv] at hv'
            cases hv'
            rw [hf] at hf'
            exact absurd hf' (by simp)
          · exact Or.inl ha
        | some u =>
          have ha : authenticate users secret now (some h) = .ok (sanitizeUser u) := by
            simp [authenticate, hbd, hv, hf]
          refine ⟨?_, ?_, ?_⟩
          · rw [ha]
            simp only [iff_false, reduceCtorEq, false_iff]
            rintro (hn | ⟨h', heq, hcase⟩)
            · exact absurd hn (by simp)
            · cases heq
              rcases hcase with h1 | h2 | ⟨uid', hv', hf'⟩
              · rw [hb] at h1
                exact absurd h1 (by simp)
              · rw [hv] at h2
                exact absurd h2 (by simp)
              · rw [hv] at hv'
                cases hv'
                rw [hf] at hf'
                exact absurd hf' (by simp)
          · intro h' uid' u' heq hshape hv' hf'
            cases heq
            rw [hv] at hv'
            cases hv'
            rw [hf] at hf'
            cases hf'
            exact ha
          · exact Or.inr ⟨u, List.mem_of_find?_eq_some hf, ha⟩
    · have hbf : hasBearerShape h.toList = false := eq_false_of_ne_true hb
      have hbfd : hasBearerShape h.data = false := hbf
      have ha : authenticate users secret now (some h) = .unauthorized := by
        simp [authenticate, hbfd]
      refine ⟨?_, ?_, ?_⟩
      · rw [ha]
        simp only [true_iff]
        exact Or.inr ⟨h, rfl, Or.inl hbf⟩
      · intro h' uid u heq hshape
        cases heq
        rw [hbf] at hshape
        exact absurd hshape (by simp)
      · exact Or.inl ha

/-- Witness for C4: a well-formed Bearer header with a fresh token for a
stored user authenticates and attaches the credential-free user. -/
theorem c4_auth_gate_witness :
    authenticate [wUser] "secret" 100
      (some ("Bearer " ++ encodeToken (issueToken "u1" "secret" 50)))
      = .ok (sanitizeUser wUser) :=
  (c4_auth_gate [wUser] "secret" 100
      (some ("Bearer " ++ encodeToken (issueToken "u1" "secret" 50)))).2.1
    ("Bearer " ++ encodeToken (issueToken "u1" "secret" 50)) "u1" wUser
    rfl (by decide) (by decide) (by decide)

/-- Parsing distributes over list concatenation, threading the
accumulator. -/
theorem parseNatGo_append (l1 l2 : List Char) (a : Nat) :
    parseNatGo (l1 ++ l2) a =
      match parseNatGo l1 a with
      | some v => parseNatGo l2 v
      | none => none := by
  induction l1 generalizing a with
  | nil => simp [parseNatGo]
  | cons c rest ih =>
    simp only [List.cons_append, parseNatGo]
    cases digitVal c with
    | none => simp
    | some d => simp [ih]

/-- The renderer prepends the digit list of the number to its
accumulator. -/
theorem natToCharsAux_eq_digitsOf (m : Nat) : ∀ (f : Nat) (t : List Char),
    m < f → natToCharsAux f m t = digitsOf m ++ t := by
  induction m using Nat.strong_induction_on with
  | _ m ih =>
    intro f t hf
    cases f with
    | zero => omega
    | succ f' =>
      by_cases hm : m = 0
      · subst hm
        simp [natToCharsAux, digitsOf]
      · have h10 : m / 10 < m := Nat.div_lt_self (Nat.pos_of_ne_zero hm) (by norm_num)
        have hd : digitsOf m = digitsOf (m / 10) ++ [Char.ofNat (48 + m % 10)] := by
          rw [digitsOf, natToCharsAux]
          simp only [hm, if_false]
          exact ih (m / 10) h10 m ([Char.ofNat (48 + m % 10)]) (by omega)
        rw [natToCharsAux]
        simp only [hm, if_false]
        rw [ih (m / 10) h10 f' (Char.ofNat (48 + m % 10) :: t) (by omega), hd,
          List.append_assoc]
        simp

/-- Step equation of the digit list. -/
theorem digitsOf_step (m : Nat) (hm : m ≠ 0) :
    digitsOf m = digitsOf (m / 10) ++ [Char.ofNat (48 + m % 10)] := by
  rw [digitsOf, natToCharsAux]
  simp only [hm, if_false]
  have h10 : m / 10 < m := Nat.div_lt_self (Nat.pos_of_ne_zero hm) (by norm_num)
  exact natToCharsAux_eq_digitsOf (m / 10) m ([Char.ofNat (48 + m % 10)]) (by omega)

/-- A digit character parses to its value. -/
theorem digitVal_ofNat (r : Nat) (hr : r < 10) :
    digitVal (Char.ofNat (48 + r)) = some r := by
  interval_cases r <;> decide

/-- Parsing the digit list recovers the number. -/
theorem parseNatGo_digitsOf (m : Nat) : parseNatGo (digitsOf m) 0 = some m := by
  induction m using Nat.strong_induction_on with
  | _ m ih =>
    by_cases hm : m = 0
    · subst hm
      decide
    · have h10 : m / 10 < m := Nat.div_lt_self (Nat.pos_of_ne_zero hm) (by norm_num)
      rw [digitsOf_step m hm, parseNatGo_append, ih (m / 10) h10]
      simp only [parseNatGo, digitVal_ofNat (m % 10) (Nat.mod_lt m (by norm_num))]
      have : m / 10 * 10 + m % 10 = m := by omega
      simp [this]

/-- No character of a digit list is a dot. -/
theorem digitsOf_ne_dot (m : Nat) : ∀ c ∈ digitsOf m, c ≠ '.' := by
  induction m using Nat.strong_induction_on with
  | _ m ih =>
    by_cases hm : m = 0
    · subst hm
      intro c hc
      simp [digitsOf, natToCharsAux] at hc
    · intro c hc
      rw [digitsOf_step m hm] at hc
      rcases List.mem_append.mp hc with h | h
      · exact ih (m / 10) (Nat.div_lt_self (Nat.pos_of_ne_zero hm) (by norm_num)) c h
      · have hr : m % 10 < 10 := Nat.mod_lt m (by norm_num)
        have : c = Char.ofNat (48 + m % 10) := by simpa using h
        subst this
        revert hr
        generalize m % 10 = r
        intro hr
        interval_cases r <;> decide

/-- The decimal rendering round-trips through the parser. -/
theorem parseNat_natToChars (n : Nat) : parseNat? (natToChars n) = some n := by
  by_cases hn : n = 0
  · subst hn
    decide
  · have hch : natToChars n = digitsOf n := by
      rw [natToChars, if_neg hn, digitsOf]
    rw [hch]
    cases h : digitsOf n with
    | nil =>
      rw [digitsOf_step n hn] at h
      exact absurd h (by simp)
    | cons c cs =>
      have : parseNat? (c :: cs) = parseNatGo (c :: cs) 0 := rfl
      rw [this, ← h]
      exact parseNatGo_digitsOf n

/-- A decimal rendering contains no dot. -/
theorem natToChars_ne_dot (n : Nat) : ∀ c ∈ natToChars n, c ≠ '.' := by
  by_cases hn : n = 0
  · subst hn
    decide
  · rw [natToChars, if_neg hn]
    exact fun c hc => digitsOf_ne_dot n c hc

/-- Splitting a separator-free list yields the single piece. -/
theorem jsSplitChar_no_sep (sep : Char) (l : List Char) (h : sep ∉ l) :
    jsSplitChar sep l = [l] := by
  induction l with
  | nil => rfl
  | cons c rest ih =>
    have hc : ¬c = sep := fun he => h (he ▸ List.mem_cons_self c rest)
    have hr : sep ∉ rest := fun hm => h (List.mem_cons_of_mem c hm)
    simp [jsSplitChar, hc, ih hr]

/-- Splitting past a separator-free head piece peels it off. -/
theorem jsSplitChar_append_sep (sep : Char) (a r : List Char) (h : sep ∉ a) :
    jsSplitChar sep (a ++ sep :: r) = a :: jsSplitChar sep r := by
  induction a with
  | nil => simp [jsSplitChar]
  | cons c a' ih =>
    have hc : ¬c = sep := fun he => h (he ▸ List.mem_cons_self c a')
    have ha' : sep ∉ a' := fun hm => h (List.mem_cons_of_mem c hm)
    simp [jsSplitChar, hc, ih ha']

/-- Decoding inverts encoding for payloads whose uid and signature
segments are dot-free (as the base64url segments of a real JWT are). -/
theorem decode_encode (t : TokenPayload)
    (hu : '.' ∉ t.uid.toList) (hg : '.' ∉ t.sig.toList) :
    decodeToken (encodeToken t) = some t := by
  have hdigits : '.' ∉ natToChars t.exp := by
    intro hm
    exact natToChars_ne_dot t.exp '.' hm rfl
  rw [decodeToken, encodeToken]
  have hlist : (String.mk (t.uid.toList ++ '.' :: natToChars t.exp ++ '.' :: t.sig.toList)).toList
      = t.uid.toList ++ '.' :: (natToChars t.exp ++ '.' :: t.sig.toList) := by
    simp [String.toList]
  rw [hlist, jsSplitChar_append_sep '.' _ _ hu,
    jsSplitChar_append_sep '.' _ _ hdigits, jsSplitChar_no_sep '.' _ hg]
  simp [parseNat_natToChars]

/-- C3: a token issued for a user verifies to that user's identity at any
time before the seven-day expiry, and fails verification at any time from
the expiry on.  (The uid and secret are dot-free so that their wire
segments are well-formed, as base64url segments are.) -/
theorem c3_token_roundtrip (uid secret : String) (t0 t : Nat)
    (hu : '.' ∉ uid.toList) (hs : '.' ∉ secret.toList) :
    (t < t0 + sevenDays →
      verifyToken (encodeToken (issueToken uid secret t0)) secret t = some uid)
    ∧ (t0 + sevenDays ≤ t →
      verifyToken (encodeToken (issueToken uid secret t0)) secret t = none) := by
  have hd : decodeToken (encodeToken (issueToken uid secret t0))
      = some (issueToken uid secret t0) := decode_encode _ hu hs
  constructor
  · intro ht
    rw [verifyToken, hd]
    simp [issueToken, ht]
  · intro ht
    rw [verifyToken, hd]
    have hnt : ¬t < t0 + sevenDays := by omega
    simp [issueToken, hnt]

/-- Witness for C3: a concrete token verifies before expiry and fails at
expiry. -/
theorem c3_token_roundtrip_witness :
    verifyToken (encodeToken (issueToken "u1" "secret" 50)) "secret" 100 = some "u1"
    ∧ verifyToken (encodeToken (issueToken "u1" "secret" 50)) "secret" (50 + sevenDays)
        = none := by
  have h1 := c3_token_roundtrip "u1" "secret" 50 100 (by decide) (by decide)
  have h2 := c3_token_roundtrip "u1" "secret" 50 (50 + sevenDays) (by decide) (by decide)
  exact ⟨h1.1 (by norm_num [sevenDays]), h2.2 (by norm_num)⟩

/-- One scheduler step preserves the race invariant. -/
theorem raceInv_step (s : RaceState) (w : Bool) (h : raceInv s) :
    raceInv (raceStep "Tech" s w) := by
  rcases s with ⟨p1, p2, db⟩
  simp only [raceInv] at h
  rcases h with ⟨hdb, h1 | h1, h2 | h2⟩
    | ⟨hdb, h1, h2 | h2 | h2 | h2⟩
    | ⟨hdb, h1, h2 | h2 | h2 | h2⟩ <;>
    subst hdb <;> subst h1 <;> subst h2 <;> cases w <;> decide

/-- A whole schedule preserves the race invariant. -/
theorem raceRun_inv (ws : List Bool) (s : RaceState) (h : raceInv s) :
    raceInv (raceRun "Tech" s ws) := by
  induction ws generalizing s with
  | nil => exact h
  | cons w ws ih =>
    simp only [raceRun]
    exact ih _ (raceInv_step s w h)

/-- Running a schedule in two parts composes. -/
theorem raceRun_append (ws1 ws2 : List Bool) (s : RaceState) :
    raceRun "Tech" s (ws1 ++ ws2) = raceRun "Tech" (raceRun "Tech" s ws1) ws2 := by
  induction ws1 generalizing s with
  | nil => rfl
  | cons w ws ih =>
    simp only [List.cons_append, raceRun]
    exact ih _

/-- From any invariant state, letting both requests finish yields the
observation: one stored record, at least one error outcome. -/
theorem raceInv_finish (s : RaceState) (h : raceInv s) :
    raceObservation (raceRun "Tech" s [true, true, false, false]) := by
  rcases s with ⟨p1, p2, db⟩
  simp only [raceInv] at h
  rcases h with ⟨hdb, h1 | h1, h2 | h2⟩
    | ⟨hdb, h1, h2 | h2 | h2 | h2⟩
    | ⟨hdb, h1, h2 | h2 | h2 | h2⟩ <;>
    subst hdb <;> subst h1 <;> subst h2 <;> decide

/-- C6 counterexample: creating a category whose derived slug duplicates a
stored category's slug under a distinct name passes the route's name
pre-check, hits the storage unique index, and is surfaced as a 500 server
error — not the claimed 400 conflict. -/
theorem c6_slug_conflict_not_conflict_error :
    (createCategoryHandler [techSeed] "id9" "Tech!" none).1 = .server500
    ∧ (createCategoryHandler [techSeed] "id9" "Tech!" none).1 ≠ .dupName400
    ∧ slugify "Tech!" = techSeed.slug := by
  decide

/-- C6 amended: a creation whose name duplicates a stored category's is
answered with the 400 duplicate error by the pre-check; a creation whose
derived slug collides under a distinct name fails at the unique index and
is surfaced as a 500; and under every interleaving of two concurrent
creations of the name Tech from an empty store, exactly one Tech category
is stored and at least one of the two callers observes an error rather
than a created category. -/
theorem c6_category_creation_amended :
    (∀ (db : List CategoryRec) (i name : String) (d : Option String) (c : CategoryRec),
      c ∈ db → c.name = name →
        createCategoryHandler db i name d = (.dupName400, db))
    ∧ (∀ (db : List CategoryRec) (i name : String) (d : Option String),
      (∀ c ∈ db, c.name ≠ name) → (∃ c ∈ db, c.slug = slugify name) →
        createCategoryHandler db i name d = (.server500, db))
    ∧ (∀ sched : List Bool,
      (((raceFinal "Tech" sched).db.filter (fun c => c.name == "Tech")).length = 1)
      ∧ (((raceFinal "Tech" sched).p1 = .done .dupName400
            ∨ (raceFinal "Tech" sched).p1 = .done .server500)
         ∨ ((raceFinal "Tech" sched).p2 = .done .dupName400
            ∨ (raceFinal "Tech" sched).p2 = .done .server500))) := by
  refine ⟨?_, ?_, ?_⟩
  · intro db i name d c hc hname
    have hfind : (db.find? (fun c => c.name == name)).isSome := by
      rw [List.find?_isSome]
      exact ⟨c, hc, by simp [hname]⟩
    simp [createCategoryHandler, hfind]
  · intro db i name d hn ⟨c, hc, hslug⟩
    have hfind : db.find? (fun c => c.name == name) = none := by
      rw [List.find?_eq_none]
      intro q hq
      simp [hn q hq]
    have hany : (db.any fun q =>
        q.name == (saveCategoryDoc (newCategory i name d)).cat.name
          || q.slug == (saveCategoryDoc (newCategory i name d)).cat.slug) = true := by
      rw [List.any_eq_true]
      refine ⟨c, hc, ?_⟩
      have : (saveCategoryDoc (newCategory i name d)).cat.slug = slugify name := by
        simp [saveCategoryDoc, newCategory, categoryPreSave]
      rw [this, hslug]
      simp
    simp [createCategoryHandler, hfind, insertCategory, hany]
  · intro sched
    have hinv : raceInv (raceRun "Tech" { p1 := .ready, p2 := .ready, db := [] } sched) :=
      raceRun_inv sched _ (by decide)
    have hobs := raceInv_finish _ hinv
    rw [raceObservation] at hobs
    rw [raceFinal, raceRun_append]
    exact hobs

/-- Witness for the amended C6: a second sequential creation of Tech is
answered with the duplicate error and stores nothing. -/
theorem c6_category_creation_amended_witness :
    createCategoryHandler [techSeed] "id9" "Tech" none = (.dupName400, [techSeed]) :=
  c6_category_creation_amended.1 [techSeed] "id9" "Tech" none techSeed (by decide) rfl

/-- The splitter never returns an empty list of pieces. -/
theorem jsSplitChar_ne_nil (sep : Char) (l : List Char) : jsSplitChar sep l ≠ [] := by
  cases l with
  | nil => simp [jsSplitChar]
  | cons c rest =>
    simp only [jsSplitChar]
    by_cases hc : c = sep
    · simp [hc]
    · simp only [hc, if_false]
      cases jsSplitChar sep rest <;> simp

/-- A leading space contributes no word. -/
theorem spaceWords_cons_sp (r : List Char) : spaceWords (' ' :: r) = spaceWords r := by
  simp [spaceWords, jsSplitChar]

/-- A non-space character before a space-led tail opens a one-letter
word. -/
theorem spaceWords_cons_startsSp (c : Char) (X : List Char) (hc : c ≠ ' ')
    (hX : startsSp X = true) : spaceWords (c :: X) = [c] :: spaceWords X := by
  cases X with
  | nil => simp [startsSp] at hX
  | cons d ds =>
    have hd : d = ' ' := by simpa [startsSp] using hX
    subst hd
    simp [spaceWords, jsSplitChar, hc]

/-- A non-space character before a non-space-led tail extends the tail's
first word. -/
theorem spaceWords_cons_nonspace (c : Char) (X : List Char) (hc : c ≠ ' ')
    (hne : X ≠ []) (hX : startsSp X = false) :
    spaceWords (c :: X) = (c :: (spaceWords X).headD []) :: (spaceWords X).tail := by
  cases X with
  | nil => exact absurd rfl hne
  | cons d ds =>
    have hd : ¬d = ' ' := by simpa [startsSp] using hX
    cases hjs : jsSplitChar ' ' ds with
    | nil => exact absurd hjs (jsSplitChar_ne_nil ' ' ds)
    | cons h t =>
      simp [spaceWords, jsSplitChar, hc, hd, hjs]

/-- A nonempty list without a trailing space has at least one word. -/
theorem spaceWords_ne_nil (l : List Char) (hnt : noTrailSp l = true) (hne : l ≠ []) :
    spaceWords l ≠ [] := by
  induction l with
  | nil => exact absurd rfl hne
  | cons c rest ih =>
    by_cases hc : c = ' '
    · subst hc
      cases rest with
      | nil => simp [noTrailSp] at hnt
      | cons d ds =>
        have hnt' : noTrailSp (d :: ds) = true := hnt
        rw [spaceWords_cons_sp]
        exact ih hnt' (by simp)
    · cases hjs : jsSplitChar ' ' rest with
      | nil => exact absurd hjs (jsSplitChar_ne_nil ' ' rest)
      | cons h t => simp [spaceWords, jsSplitChar, hc, hjs]

/-- Joining two or more pieces starts with the first piece and a
separator. -/
theorem intercalate_two (a b : List Char) (l : List (List Char)) :
    List.intercalate ['-'] (a :: b :: l) = a ++ '-' :: List.intercalate ['-'] (b :: l) := by
  simp [List.intercalate]

/-- Joining one piece is that piece. -/
theorem intercalate_one (a : List Char) : List.intercalate ['-'] [a] = a := by
  simp [List.intercalate]

/-- A character prepended to the first piece prefixes the join. -/
theorem intercalate_cons_head (c : Char) (w : List Char) (ws : List (List Char)) :
    List.intercalate ['-'] ((c :: w) :: ws) = c :: List.intercalate ['-'] (w :: ws) := by
  cases ws with
  | nil => simp [intercalate_one]
  | cons b bs => simp [intercalate_two]

/-- A one-letter first piece before remaining pieces joins with a
separator after it. -/
theorem intercalate_cons_single (c : Char) (ws : List (List Char)) (h : ws ≠ []) :
    List.intercalate ['-'] ([c] :: ws) = c :: '-' :: List.intercalate ['-'] ws := by
  cases ws with
  | nil => exact absurd rfl h
  | cons b bs => simp [intercalate_two]

/-- On lists without a trailing space, the collapse pass computes the
hyphen-join of the space-separated words (with one leading hyphen exactly
when the list leads with a space and the pass is not already inside a
run). -/
theorem collapse_eq_join (l : List Char) (hnt : noTrailSp l = true) :
    collapseGo l true = List.intercalate ['-'] (spaceWords l)
    ∧ collapseGo l false =
      (if startsSp l = true then '-' :: List.intercalate ['-'] (spaceWords l)
       else List.intercalate ['-'] (spaceWords l)) := by
  induction l with
  | nil =>
    constructor <;> simp [collapseGo, spaceWords, jsSplitChar, startsSp, List.intercalate]
  | cons c rest ih =>
    by_cases hc : c = ' '
    · subst hc
      cases rest with
      | nil => simp [noTrailSp] at hnt
      | cons d ds =>
        have hnt' : noTrailSp (d :: ds) = true := hnt
        obtain ⟨ihT, ihF⟩ := ih hnt'
        have e1 : collapseGo (' ' :: d :: ds) true = collapseGo (d :: ds) true := by
          simp [collapseGo]
        have e2 : collapseGo (' ' :: d :: ds) false = '-' :: collapseGo (d :: ds) true := by
          simp [collapseGo]
        refine ⟨?_, ?_⟩
        · rw [e1, spaceWords_cons_sp]
          exact ihT
        · rw [e2, spaceWords_cons_sp]
          have hss : startsSp (' ' :: d :: ds) = true := by simp [startsSp]
          rw [hss, if_pos rfl, ihT]
    · have hstart : startsSp (c :: rest) = false := by simp [startsSp, hc]
      have e3T : collapseGo (c :: rest) true = c :: collapseGo rest false := by
        simp [collapseGo, hc]
      have e3F : collapseGo (c :: rest) false = c :: collapseGo rest false := by
        simp [collapseGo, hc]
      cases rest with
      | nil =>
        refine ⟨?_, ?_⟩ <;>
          simp [e3T, e3F, collapseGo, spaceWords, jsSplitChar, hc, hstart,
            List.intercalate]
      | cons d ds =>
        have hrest_ne : (d :: ds) ≠ ([] : List Char) := by simp
        have hnt' : noTrailSp (d :: ds) = true := hnt
        obtain ⟨ihT, ihF⟩ := ih hnt'
        by_cases hsp : startsSp (d :: ds) = true
        · have hw : spaceWords (c :: d :: ds) = [c] :: spaceWords (d :: ds) :=
            spaceWords_cons_startsSp c (d :: ds) hc hsp
          have hwne : spaceWords (d :: ds) ≠ [] := spaceWords_ne_nil _ hnt' hrest_ne
          have hjoin : List.intercalate ['-'] ([c] :: spaceWords (d :: ds))
              = c :: '-' :: List.intercalate ['-'] (spaceWords (d :: ds)) :=
            intercalate_cons_single c _ hwne
          have hcf : collapseGo (d :: ds) false
              = '-' :: List.intercalate ['-'] (spaceWords (d :: ds)) := by
            rw [ihF, if_pos hsp]
          refine ⟨?_, ?_⟩
          · rw [e3T, hcf, hw, hjoin]
          · rw [e3F, hcf, hw, hjoin]
            simp [hstart]
        · have hspf : startsSp (d :: ds) = false := eq_false_of_ne_true hsp
          have hw := spaceWords_cons_nonspace c (d :: ds) hc hrest_ne hspf
          have hwne : spaceWords (d :: ds) ≠ [] := spaceWords_ne_nil _ hnt' hrest_ne
          have hcf : collapseGo (d :: ds) false
              = List.intercalate ['-'] (spaceWords (d :: ds)) := by
            rw [ihF]
            simp [hspf]
          cases hws : spaceWords (d :: ds) with
          | nil => exact absurd hws hwne
          | cons w ws =>
            have hw2 : spaceWords (c :: d :: ds) = (c :: w) :: ws := by
              rw [hw, hws]
              simp
            have hjoin2 : List.intercalate ['-'] ((c :: w) :: ws)
                = c :: List.intercalate ['-'] (w :: ws) := intercalate_cons_head c w ws
            refine ⟨?_, ?_⟩
            · rw [e3T, hcf, hws, hw2, hjoin2]
            · rw [e3F, hcf, hws, hw2, hjoin2]
              simp [hstart]

/-- Trailing-space removal leaves no trailing space. -/
theorem noTrailSp_dropTrail (m : List Char) : noTrailSp (dropTrailSp m) = true := by
  induction m with
  | nil => rfl
  | cons c rest ih =>
    cases hd : dropTrailSp rest with
    | nil =>
      by_cases hc : c = ' ' <;> simp [dropTrailSp, hd, hc, noTrailSp]
    | cons r0 rs =>
      have hres : dropTrailSp (c :: rest) = c :: r0 :: rs := by simp [dropTrailSp, hd]
      rw [hres]
      have h2 : noTrailSp (c :: r0 :: rs) = noTrailSp (r0 :: rs) := rfl
      rw [h2, ← hd]
      exact ih

/-- Leading-space removal leaves no leading space. -/
theorem startsSp_dropWhile (x : List Char) :
    startsSp (x.dropWhile (fun c => c = ' ')) = false := by
  induction x with
  | nil => rfl
  | cons c rest ih =>
    by_cases hc : c = ' '
    · simpa [List.dropWhile_cons, hc] using ih
    · simp [List.dropWhile_cons, hc, startsSp]

/-- Trailing-space removal from a non-space-led list stays non-space-led. -/
theorem startsSp_dropTrail (m : List Char) (h : startsSp m = false) :
    startsSp (dropTrailSp m) = false := by
  cases m with
  | nil => rfl
  | cons c rest =>
    have hc : ¬(c = ' ') := by simpa [startsSp] using h
    cases hd : dropTrailSp rest with
    | nil => simp [dropTrailSp, hd, hc, startsSp]
    | cons r0 rs => simp [dropTrailSp, hd, startsSp, hc]

/-- Leading-space removal preserves the words. -/
theorem spaceWords_dropWhile (x : List Char) :
    spaceWords (x.dropWhile (fun c => c = ' ')) = spaceWords x := by
  induction x with
  | nil => rfl
  | cons c rest ih =>
    by_cases hc : c = ' '
    · subst hc
      rw [List.dropWhile_cons]
      simp only [decide_True, if_true]
      rw [spaceWords_cons_sp]
      exact ih
    · simp [List.dropWhile_cons, hc]

/-- Two tails with the same words and the same space-led status yield the
same words under a common non-space head. -/
theorem spaceWords_cons_congr (c : Char) (hc : c ≠ ' ') (X Y : List Char)
    (hXne : X ≠ []) (hYne : Y ≠ []) (hW : spaceWords X = spaceWords Y)
    (hS : startsSp X = startsSp Y) :
    spaceWords (c :: X) = spaceWords (c :: Y) := by
  by_cases hsX : startsSp X = true
  · have hsY : startsSp Y = true := by rw [← hS]; exact hsX
    rw [spaceWords_cons_startsSp c X hc hsX, spaceWords_cons_startsSp c Y hc hsY, hW]
  · have hX : startsSp X = false := eq_false_of_ne_true hsX
    have hY : startsSp Y = false := by rw [← hS]; exact hX
    rw [spaceWords_cons_nonspace c X hc hXne hX, spaceWords_cons_nonspace c Y hc hYne hY,
      hW]

/-- Trailing-space removal preserves the words and, when anything
remains, the space-led status. -/
theorem spaceWords_dropTrail_spec (m : List Char) :
    (dropTrailSp m = [] → spaceWords m = [])
    ∧ (dropTrailSp m ≠ [] →
        spaceWords (dropTrailSp m) = spaceWords m
        ∧ startsSp (dropTrailSp m) = startsSp m) := by
  induction m with
  | nil => exact ⟨fun _ => rfl, fun h => absurd rfl h⟩
  | cons c rest ih =>
    obtain ⟨ih1, ih2⟩ := ih
    cases hd : dropTrailSp rest with
    | nil =>
      have hwr : spaceWords rest = [] := ih1 hd
      by_cases hc : c = ' '
      · subst hc
        have hres : dropTrailSp (' ' :: rest) = [] := by simp [dropTrailSp, hd]
        refine ⟨fun _ => ?_, fun hne => absurd hres hne⟩
        rw [spaceWords_cons_sp]
        exact hwr
      · have hres : dropTrailSp (c :: rest) = [c] := by simp [dropTrailSp, hd, hc]
        refine ⟨fun hh => absurd (hres ▸ hh) (by simp), fun _ => ?_⟩
        rw [hres]
        refine ⟨?_, by simp [startsSp]⟩
        cases hjs : jsSplitChar ' ' rest with
        | nil => exact absurd hjs (jsSplitChar_ne_nil ' ' rest)
        | cons h t =>
          have hflt : (h :: t).filter (fun w => !w.isEmpty) = [] := by
            rw [spaceWords, hjs] at hwr
            exact hwr
          have hmem := List.filter_eq_nil_iff.mp hflt
          have hh : h = [] := by
            have := hmem h (by simp)
            simpa [List.isEmpty_iff] using this
          have hft : t.filter (fun w => !w.isEmpty) = [] := by
            rw [List.filter_eq_nil_iff]
            intro a ha
            exact hmem a (by simp [ha])
          simp [spaceWords, jsSplitChar, hc, hjs, hh, hft]
    | cons r0 rs =>
      have hne' : dropTrailSp rest ≠ [] := by rw [hd]; simp
      obtain ⟨hwEq, hsEq⟩ := ih2 hne'
      have hres : dropTrailSp (c :: rest) = c :: r0 :: rs := by simp [dropTrailSp, hd]
      have hrest_ne : rest ≠ [] := by
        intro he
        rw [he] at hd
        simp [dropTrailSp] at hd
      refine ⟨fun hh => absurd (hres ▸ hh) (by simp), fun _ => ?_⟩
      rw [hres, ← hd]
      by_cases hc : c = ' '
      · subst hc
        refine ⟨?_, by simp [startsSp]⟩
        rw [spaceWords_cons_sp, spaceWords_cons_sp]
        exact hwEq
      · refine ⟨?_, by simp [startsSp]⟩
        exact spaceWords_cons_congr c hc (dropTrailSp rest) rest hne' hrest_ne hwEq hsEq

/-- Trimming preserves the words. -/
theorem spaceWords_trim (x : List Char) : spaceWords (trimSpaces x) = spaceWords x := by
  rw [trimSpaces]
  by_cases h : dropTrailSp (x.dropWhile (fun c => c = ' ')) = []
  · rw [h]
    have hx := (spaceWords_dropTrail_spec (x.dropWhile (fun c => c = ' '))).1 h
    rw [spaceWords_dropWhile] at hx
    rw [hx]
    rfl
  · have hx := ((spaceWords_dropTrail_spec (x.dropWhile (fun c => c = ' '))).2 h).1
    rw [hx, spaceWords_dropWhile]

/-- A trimmed list does not lead with a space. -/
theorem startsSp_trim (x : List Char) : startsSp (trimSpaces x) = false := by
  rw [trimSpaces]
  exact startsSp_dropTrail _ (startsSp_dropWhile x)

/-- A trimmed list does not end with a space. -/
theorem noTrailSp_trim (x : List Char) : noTrailSp (trimSpaces x) = true :=
  noTrailSp_dropTrail _

/-- C7: the source's slug derivation — lowercase, strip all characters
other than word characters and spaces, trim, collapse internal whitespace
runs to single hyphens — agrees with the spec-side formulation joining
the whitespace-separated words with single hyphens, and sends the title
Hello, World!  Foo to hello-world-foo. -/
theorem c7_slug_derivation :
    (∀ name : String, slugify name = slugifySpec name)
    ∧ slugify "Hello, World!  Foo" = "hello-world-foo" := by
  constructor
  · intro name
    rw [slugify, slugifySpec]
    have h := (collapse_eq_join
      (trimSpaces (stripNonWordSpace (name.toList.map lowerChar)))
      (noTrailSp_trim _)).2
    rw [h, startsSp_trim]
    simp [spaceWords_trim]
  · decide

end Blog
